import Mathlib

/-!
Verification of the `fibonacci_race` Rust program (src/main.rs).

The program computes Fibonacci numbers with five solver variants over `u128`:
`backtrace_fib` (naive recursion), `backtrace_memo_fib` (recursion with a
caller-supplied HashMap memo), `dynamic_fib` (iterative loop over a HashMap),
`better_dynamic_fib` (iterative loop over a pair), and `cached_fib`
(recursion memoized by the external `cached` crate in a process-lifetime
LRU cache of size 200), plus a CLI boundary in `main`.

We embed each function shallowly: `u128` arithmetic is `Nat` with an explicit
`% 2 ^ 128` wherever the Rust `+` may wrap, `HashMap<u128, u128>` is
`Nat → Option Nat`, and fallible lookups (`unwrap`) thread `Option`.
-/

/-- The `u128` modulus: Rust `u128` arithmetic wraps modulo `2 ^ 128`
(release-profile wrapping semantics). -/
def U128_MOD : Nat := 2 ^ 128

/-- The mathematical Fibonacci value reduced into `u128` range: what a
wrapping-`u128` Fibonacci computation produces. -/
def fibmod (n : Nat) : Nat := Nat.fib n % U128_MOD

/-- Embedding of `backtrace_fib` (src/main.rs lines 98-103): naive double
recursion on `u128`; the `+` wraps modulo `2 ^ 128`. -/
def backtrace_fib : Nat → Nat
  | 0 => 0
  | 1 => 1
  | n + 2 => (backtrace_fib (n + 1) + backtrace_fib n) % U128_MOD

/-- Rust `HashMap<u128, u128>` embedded as a partial map on `Nat`. -/
abbrev Memo : Type := Nat → Option Nat

/-- Embedding of `HashMap::new()`: the empty memo table. -/
def emptyMemo : Memo := fun _ => none

/-- Embedding of `memo.insert(k, v)`. -/
def insertMemo (memo : Memo) (k v : Nat) : Memo :=
  fun x => if x = k then some v else memo x

/-- Embedding of `backtrace_memo_fib` (src/main.rs lines 109-121): look the
argument up in the memo; on a miss, compute (base cases `0 | 1 => fib_num`,
otherwise the two recursive calls threading the memo through) and insert the
result keyed by the argument. Returns the value together with the updated
memo, since the Rust function mutates the `HashMap` in place. -/
def backtrace_memo_fib (memo : Memo) (fib_num : Nat) : Nat × Memo :=
  match memo fib_num with
  | some result => (result, memo)
  | none =>
    match fib_num with
    | 0 => (0, insertMemo memo 0 0)
    | 1 => (1, insertMemo memo 1 1)
    | n + 2 =>
      let r1 := backtrace_memo_fib memo (n + 1)
      let r2 := backtrace_memo_fib r1.2 n
      let result := (r1.1 + r2.1) % U128_MOD
      (result, insertMemo r2.2 (n + 2) result)

/-- A memo table all of whose entries hold the wrapped Fibonacci value of
their key. -/
def FibCorrect (memo : Memo) : Prop :=
  ∀ k v, memo k = some v → v = fibmod k

/-- One iteration of the `for i in 2..=n` loop of `dynamic_fib`
(src/main.rs lines 133-136): read keys `i - 1` and `i - 2`, add (wrapping),
insert at key `i`. A failed lookup models the `unwrap` panic as `none`. -/
def dyn_step (om : Option Memo) (i : Nat) : Option Memo :=
  match om with
  | none => none
  | some m =>
    match m (i - 1), m (i - 2) with
    | some a, some b => some (insertMemo m i ((a + b) % U128_MOD))
    | _, _ => none

/-- Embedding of `dynamic_fib` (src/main.rs lines 126-140): seed keys `0`
and `1`, loop `i` over `2..=fib_num` (skipped when `fib_num` is `0` or `1`),
then look up key `fib_num`; `none` models a panicking `unwrap`. -/
def dynamic_fib (fib_num : Nat) : Option Nat :=
  let init : Memo := insertMemo (insertMemo emptyMemo 0 0) 1 1
  let memo : Option Memo :=
    match fib_num with
    | 0 | 1 => some init
    | n => (List.range' 2 (n - 1)).foldl dyn_step (some init)
  memo.bind fun m => m fib_num

/-- Embedding of the loop body of `better_dynamic_fib` iterated `c` times
(src/main.rs lines 152-154): `memo = (memo.1, memo.0 + memo.1)` with
wrapping addition. -/
def better_loop : Nat × Nat → Nat → Nat × Nat
  | m, 0 => m
  | m, c + 1 => better_loop (m.2, (m.1 + m.2) % U128_MOD) c

/-- Embedding of `better_dynamic_fib` (src/main.rs lines 145-157): start from
the pair `(0, 1)`, return the input directly for `0` and `1`, otherwise run
the loop once per element of `2..=fib_num` and return the second component. -/
def better_dynamic_fib (fib_num : Nat) : Nat :=
  match fib_num with
  | 0 => 0
  | 1 => 1
  | n + 2 => (better_loop (0, 1) (n + 1)).2

/-- The process-lifetime cache behind `cached_fib`. Modelled from the spec:
the `#[cached(size = 200)]` attribute (src/main.rs line 162) comes from the
external `cached` crate, which is not part of this repository; per spec §3
and §4.4 it is "a mapping from index to value with a fixed maximum size …
with eviction policy removing the least-recently-used entry when capacity is
exceeded". We represent it as an association list ordered most-recently-used
first. -/
abbrev Cache : Type := List (Nat × Nat)

/-- The capacity from `#[cached(size = 200)]`. -/
def CACHE_SIZE : Nat := 200

/-- Modelled from the spec: cache lookup; a hit returns the stored value and
refreshes the entry's recency (moves it to the front). -/
def cache_get (c : Cache) (k : Nat) : Option Nat × Cache :=
  match c.find? (fun e => e.1 == k) with
  | some e => (some e.2, (k, e.2) :: c.filter (fun e => e.1 != k))
  | none => (none, c)

/-- Modelled from the spec: cache store; inserts the entry as most recently
used and drops the least-recently-used entries beyond the capacity. -/
def cache_set (c : Cache) (k v : Nat) : Cache :=
  ((k, v) :: c.filter (fun e => e.1 != k)).take CACHE_SIZE

mutual

/-- Embedding of `cached_fib` wrapped by the `cached` crate: consult the
shared cache first; a hit returns the stored value (refreshing recency), a
miss runs the function body and stores its result. -/
def cached_fib (c : Cache) (fib_num : Nat) : Nat × Cache :=
  match (cache_get c fib_num).1 with
  | some v => (v, (cache_get c fib_num).2)
  | none => cached_fib_compute c fib_num
termination_by (fib_num, 1)

/-- The body of `cached_fib` on a cache miss: the Rust source of
src/main.rs lines 163-169 (base cases return `fib_num`, otherwise two
recursive calls, wrapping `+`), followed by the crate's store of the result
keyed by the argument. -/
def cached_fib_compute (c : Cache) (fib_num : Nat) : Nat × Cache :=
  match fib_num with
  | 0 => (0, cache_set c 0 0)
  | 1 => (1, cache_set c 1 1)
  | n + 2 =>
    let r1 := cached_fib c (n + 1)
    let r2 := cached_fib r1.2 n
    let result := (r1.1 + r2.1) % U128_MOD
    (result, cache_set r2.2 (n + 2) result)
termination_by (fib_num, 0)

end

/-- A cache all of whose entries hold the wrapped Fibonacci value of their
key. -/
def CacheCorrect (c : Cache) : Prop :=
  ∀ k v, (k, v) ∈ c → v = fibmod k

/-- Embedding of Rust `str::parse::<u128>()` as used on src/main.rs line 23:
an optional leading plus sign followed by at least one ASCII digit, the
value fitting in 128 bits; `none` models `Err(ParseIntError)`. -/
def parse_u128 (s : String) : Option Nat :=
  let ds : List Char :=
    match s.data with
    | '+' :: rest => rest
    | cs => cs
  if ds.isEmpty then none
  else if ds.all (fun c => c.isDigit) then
    let v := ds.foldl (fun acc c => acc * 10 + (c.toNat - 48)) 0
    if v < U128_MOD then some v else none
  else none

/-- The externally visible outcome of `main` (src/main.rs lines 15-30). -/
inductive MainOutcome : Type
  /-- Wrong argument count: the usage line is printed to stdout and `main`
  returns (the process exits successfully); no solver runs. -/
  | usage : MainOutcome
  /-- Parsing `args[1]` failed: the `unwrap` on src/main.rs line 23 panics,
  propagating the generic `ParseIntError` (the process aborts with a failure
  exit code); no tailored message is printed and no solver runs. -/
  | panicParse : MainOutcome
  /-- Parsed `fib_num < 2`: the "really boring" decline is printed to stdout
  and `main` returns (the process exits successfully); no solver runs. -/
  | declineSmall (n : Nat) : MainOutcome
  /-- Parsed `fib_num > 186`: the "too big to calculate Phi" decline is
  printed to stdout and `main` returns (the process exits successfully); no
  solver runs. -/
  | declineBig (n : Nat) : MainOutcome
  /-- In-range input: `main` runs `solve_each` three times plus the final
  `cached_fib` calls, invoking every solver variant. -/
  | report (n : Nat) : MainOutcome
deriving DecidableEq

/-- Embedding of the control flow of `main` (src/main.rs lines 15-30):
check the argument count, parse `args[1]` (panicking on failure), then the
two range guards, and otherwise run the report. -/
def main_logic : List String → MainOutcome
  | [_, arg] =>
    match parse_u128 arg with
    | none => MainOutcome.panicParse
    | some fib_num =>
      if fib_num < 2 then MainOutcome.declineSmall fib_num
      else if fib_num > 186 then MainOutcome.declineBig fib_num
      else MainOutcome.report fib_num
  | _ => MainOutcome.usage

/-- Whether the process terminates with a success exit code in each outcome:
`return` from `main` exits 0, an `unwrap` panic aborts with a failure code. -/
def outcome_exit_success : MainOutcome → Bool
  | MainOutcome.panicParse => false
  | _ => true

/-- Whether any solver variant is invoked in each outcome: only the full
report path reaches `solve_each` / `cached_fib`. -/
def outcome_invokes_solver : MainOutcome → Bool
  | MainOutcome.report _ => true
  | _ => false

/-- The pre-populated memo used to witness C5 and C6: a single correct
entry mapping key 3 to Fib(3) = 2. -/
def memoThreeTwo : Memo := fun k => if k = 3 then some 2 else none

/-- The seeded memo of `dynamic_fib` used to witness C6. -/
def memoZeroOne : Memo := insertMemo (insertMemo emptyMemo 0 0) 1 1

/-- Sample CLI strings used in the boundary witnesses: the program name and
the arguments exercised by spec §8 ("n=1 or n=187 prints a decline message",
wrong count prints usage) and a non-numeric argument. -/
def sampleProg : String := "fibonacci_race"

/-- A parsable argument below the lower range guard. -/
def sampleArgLow : String := "1"

/-- A parsable argument above the 128-bit overflow guard. -/
def sampleArgHigh : String := "187"

/-- An argument that fails `str::parse::<u128>()`. -/
def sampleArgBad : String := "abc"

theorem U128_MOD_pos : 0 < U128_MOD := by decide

theorem fibmod_zero : fibmod 0 = 0 := by decide

theorem fibmod_one : fibmod 1 = 1 := by decide

theorem fibmod_add_two (n : Nat) :
    fibmod (n + 2) = (fibmod (n + 1) + fibmod n) % U128_MOD := by
  unfold fibmod
  rw [Nat.fib_add_two, Nat.add_mod, Nat.add_comm]

/-- The naive recursive solver computes the wrapped Fibonacci value. -/
theorem backtrace_fib_eq_fibmod (n : Nat) : backtrace_fib n = fibmod n := by
  induction n using Nat.strong_induction_on with
  | _ n ih =>
    match n with
    | 0 => simp [backtrace_fib, fibmod_zero]
    | 1 => simp [backtrace_fib, fibmod_one]
    | n + 2 =>
      rw [backtrace_fib, ih (n + 1) (by omega), ih n (by omega),
        fibmod_add_two]

/-- Index 186 is the largest whose Fibonacci number fits in `u128`,
which is why the CLI caps `n` at `186`. -/
theorem fib_186_lt_u128 : Nat.fib 186 < U128_MOD := by decide

theorem fib_lt_u128_of_le_186 {n : Nat} (h : n ≤ 186) :
    Nat.fib n < U128_MOD :=
  lt_of_le_of_lt (Nat.fib_mono h) fib_186_lt_u128

theorem fibmod_eq_fib_of_le_186 {n : Nat} (h : n ≤ 186) :
    fibmod n = Nat.fib n :=
  Nat.mod_eq_of_lt (fib_lt_u128_of_le_186 h)

theorem fibCorrect_empty : FibCorrect emptyMemo := by
  intro k v h
  simp [emptyMemo] at h

theorem fibCorrect_insert {memo : Memo} (h : FibCorrect memo) (k : Nat) :
    FibCorrect (insertMemo memo k (fibmod k)) := by
  intro k' v hk'
  unfold insertMemo at hk'
  by_cases hkk : k' = k
  · subst hkk
    simp at hk'
    exact hk'.symm
  · simp [hkk] at hk'
    exact h k' v hk'

/-- On a fib-correct memo, the memoized solver returns the wrapped Fibonacci
value and leaves the memo fib-correct. -/
theorem backtrace_memo_fib_correct (n : Nat) :
    ∀ memo : Memo, FibCorrect memo →
      (backtrace_memo_fib memo n).1 = fibmod n ∧
        FibCorrect (backtrace_memo_fib memo n).2 := by
  induction n using Nat.strong_induction_on with
  | _ n ih =>
    intro memo hmemo
    match n with
    | 0 =>
      rw [backtrace_memo_fib]
      cases hhit : memo 0 with
      | some v =>
        simpa [hhit, hmemo 0 v hhit] using hmemo
      | none =>
        refine ⟨by simp [fibmod_zero], ?_⟩
        simpa [fibmod_zero] using fibCorrect_insert hmemo 0
    | 1 =>
      rw [backtrace_memo_fib]
      cases hhit : memo 1 with
      | some v =>
        simpa [hhit, hmemo 1 v hhit] using hmemo
      | none =>
        refine ⟨by simp [fibmod_one], ?_⟩
        simpa [fibmod_one] using fibCorrect_insert hmemo 1
    | n + 2 =>
      rw [backtrace_memo_fib]
      cases hhit : memo (n + 2) with
      | some v =>
        simpa [hhit, hmemo (n + 2) v hhit] using hmemo
      | none =>
        simp only [hhit]
        obtain ⟨h1, h1c⟩ := ih (n + 1) (by omega) memo hmemo
        obtain ⟨h2, h2c⟩ := ih n (by omega) (backtrace_memo_fib memo (n + 1)).2 h1c
        refine ⟨by rw [h1, h2, fibmod_add_two], ?_⟩
        rw [h1, h2, ← fibmod_add_two]
        exact fibCorrect_insert h2c (n + 2)

/-- The memoized solver only ever inserts keys that are at most its
argument; in particular it never touches keys above `n`. -/
theorem backtrace_memo_fib_keys_le (n : Nat) :
    ∀ (memo : Memo) (k : Nat), n < k →
      (backtrace_memo_fib memo n).2 k = memo k := by
  induction n using Nat.strong_induction_on with
  | _ n ih =>
    intro memo k hk
    match n with
    | 0 =>
      rw [backtrace_memo_fib]
      cases hhit : memo 0 with
      | some v => rfl
      | none => simp [insertMemo, Nat.ne_of_gt hk]
    | 1 =>
      rw [backtrace_memo_fib]
      cases hhit : memo 1 with
      | some v => rfl
      | none => simp [insertMemo, Nat.ne_of_gt hk]
    | n + 2 =>
      rw [backtrace_memo_fib]
      cases hhit : memo (n + 2) with
      | some v => rfl
      | none =>
        simp only [hhit, insertMemo, Nat.ne_of_gt hk, if_false]
        rw [ih n (by omega) _ k (by omega), ih (n + 1) (by omega) _ k (by omega)]

/-- Once a key is present in the memo, every call of the memoized solver
preserves its value. -/
theorem backtrace_memo_fib_preserves (n : Nat) :
    ∀ (memo : Memo) (k v : Nat), memo k = some v →
      (backtrace_memo_fib memo n).2 k = some v := by
  induction n using Nat.strong_induction_on with
  | _ n ih =>
    intro memo k v hk
    match n with
    | 0 =>
      rw [backtrace_memo_fib]
      cases hhit : memo 0 with
      | some w => exact hk
      | none =>
        unfold insertMemo
        by_cases hk0 : k = 0
        · rw [hk0] at hk; rw [hk] at hhit; cases hhit
        · simp [hk0, hk]
    | 1 =>
      rw [backtrace_memo_fib]
      cases hhit : memo 1 with
      | some w => exact hk
      | none =>
        unfold insertMemo
        by_cases hk1 : k = 1
        · rw [hk1] at hk; rw [hk] at hhit; cases hhit
        · simp [hk1, hk]
    | n + 2 =>
      rw [backtrace_memo_fib]
      cases hhit : memo (n + 2) with
      | some w => exact hk
      | none =>
        simp only [hhit]
        unfold insertMemo
        by_cases hkn : k = n + 2
        · rw [hkn] at hk; rw [hk] at hhit; cases hhit
        · rw [if_neg hkn]
          exact ih n (by omega) _ k v (ih (n + 1) (by omega) memo k v hk)

/-- Loop invariant for `dynamic_fib`: starting at index `i ≥ 2` from a memo
holding the wrapped Fibonacci value at every key below `i`, the loop runs to
completion and the final memo holds the wrapped Fibonacci value at every key
below `i + c`. -/
theorem dyn_loop_invariant (c : Nat) :
    ∀ (i : Nat) (m : Memo), 2 ≤ i →
      (∀ k, k < i → m k = some (fibmod k)) →
      ∃ m' : Memo, (List.range' i c).foldl dyn_step (some m) = some m' ∧
        ∀ k, k < i + c → m' k = some (fibmod k) := by
  induction c with
  | zero =>
    intro i m _ hm
    exact ⟨m, rfl, fun k hk => hm k (by omega)⟩
  | succ c ihc =>
    intro i m hi hm
    rw [List.range'_succ]
    have hstep : dyn_step (some m) i =
        some (insertMemo m i ((fibmod (i - 1) + fibmod (i - 2)) % U128_MOD)) := by
      simp only [dyn_step]
      rw [hm (i - 1) (by omega), hm (i - 2) (by omega)]
    have hfib : (fibmod (i - 1) + fibmod (i - 2)) % U128_MOD = fibmod i := by
      obtain ⟨j, rfl⟩ : ∃ j, i = j + 2 := ⟨i - 2, by omega⟩
      rw [fibmod_add_two]
      congr 2
    rw [List.foldl_cons, hstep, hfib]
    obtain ⟨m', hm', hall⟩ :=
      ihc (i + 1) (insertMemo m i (fibmod i)) (by omega) (by
        intro k hk
        unfold insertMemo
        by_cases hki : k = i
        · simp [hki]
        · rw [if_neg hki]
          exact hm k (by omega))
    exact ⟨m', hm', fun k hk => hall k (by omega)⟩

/-- The HashMap-based iterative solver never hits the panic branch and returns the wrapped
Fibonacci value. -/
theorem dynamic_fib_eq_fibmod (n : Nat) : dynamic_fib n = some (fibmod n) := by
  unfold dynamic_fib
  have hinit : ∀ k, k < 2 →
      insertMemo (insertMemo emptyMemo 0 0) 1 1 k = some (fibmod k) := by
    intro k hk
    interval_cases k
    · simp [insertMemo, fibmod_zero]
    · simp [insertMemo, fibmod_one]
  match n with
  | 0 => simpa using hinit 0 (by omega)
  | 1 => simpa using hinit 1 (by omega)
  | n + 2 =>
    obtain ⟨m', hm', hall⟩ := dyn_loop_invariant (n + 1) 2
      (insertMemo (insertMemo emptyMemo 0 0) 1 1) (by omega) hinit
    simp only []
    rw [show n + 2 - 1 = n + 1 by omega, hm']
    simpa using hall (n + 2) (by omega)

theorem better_loop_eq (c : Nat) :
    ∀ i : Nat, better_loop (fibmod i, fibmod (i + 1)) c =
      (fibmod (i + c), fibmod (i + c + 1)) := by
  induction c with
  | zero => intro i; rfl
  | succ c ihc =>
    intro i
    rw [better_loop]
    have : (fibmod i + fibmod (i + 1)) % U128_MOD = fibmod (i + 2) := by
      rw [fibmod_add_two, Nat.add_comm]
    simp only [this]
    rw [ihc (i + 1)]
    congr 1 <;> congr 1 <;> omega

theorem cacheCorrect_nil : CacheCorrect [] := by
  intro k v h
  simp at h

theorem cache_get_fst_correct {c : Cache} {k v : Nat} (hc : CacheCorrect c)
    (h : (cache_get c k).1 = some v) : v = fibmod k := by
  unfold cache_get at h
  cases hfind : c.find? (fun e => e.1 == k) with
  | none => rw [hfind] at h; cases h
  | some e =>
    rw [hfind] at h
    have hmem : e ∈ c := List.mem_of_find?_eq_some hfind
    have hek : e.1 = k := by
      have := List.find?_some hfind
      simpa using this
    have := hc e.1 e.2 (by simpa using hmem)
    rw [hek] at this
    simp at h
    omega

theorem cache_get_of_find?_none {c : Cache} {n : Nat}
    (h : c.find? (fun e => e.1 == n) = none) : cache_get c n = (none, c) := by
  rw [cache_get, h]

theorem cache_get_of_find?_some {c : Cache} {n : Nat} {e : Nat × Nat}
    (h : c.find? (fun e => e.1 == n) = some e) :
    cache_get c n = (some e.2, (n, e.2) :: c.filter (fun e => e.1 != n)) := by
  rw [cache_get, h]

theorem cache_get_hit_snd {c : Cache} {n v : Nat}
    (h : (cache_get c n).1 = some v) :
    (cache_get c n).2 = (n, v) :: c.filter (fun e => e.1 != n) := by
  cases hfind : c.find? (fun e => e.1 == n) with
  | none => rw [cache_get_of_find?_none hfind] at h; cases h
  | some e =>
    rw [cache_get_of_find?_some hfind] at h ⊢
    simp only [Option.some.injEq] at h
    rw [h]

theorem cache_get_snd_correct {c : Cache} (k : Nat) (hc : CacheCorrect c) :
    CacheCorrect (cache_get c k).2 := by
  cases hfind : c.find? (fun e => e.1 == k) with
  | none => rw [cache_get_of_find?_none hfind]; exact hc
  | some e =>
    rw [cache_get_of_find?_some hfind]
    intro k' v' hmem'
    simp only [List.mem_cons] at hmem'
    cases hmem' with
    | inl heq =>
      obtain ⟨hk', hv'⟩ := Prod.mk.injEq .. ▸ heq
      subst hk'
      subst hv'
      have hmem : e ∈ c := List.mem_of_find?_eq_some hfind
      have hek : e.1 = k' := by
        have := List.find?_some hfind
        simpa using this
      have := hc e.1 e.2 (by simpa using hmem)
      rwa [hek] at this
    | inr hmem =>
      exact hc k' v' (List.mem_of_mem_filter hmem)

theorem cache_set_correct {c : Cache} {k v : Nat} (hc : CacheCorrect c)
    (hv : v = fibmod k) : CacheCorrect (cache_set c k v) := by
  intro k' v' hmem'
  have hmem : (k', v') ∈ (k, v) :: c.filter (fun e => e.1 != k) :=
    List.take_subset _ _ hmem'
  simp only [List.mem_cons] at hmem
  cases hmem with
  | inl heq =>
    obtain ⟨hk', hv'⟩ := Prod.mk.injEq .. ▸ heq
    subst hk'
    subst hv'
    exact hv
  | inr hmem =>
    exact hc k' v' (List.mem_of_mem_filter hmem)

theorem cached_fib_hit {c : Cache} {n v : Nat}
    (h : (cache_get c n).1 = some v) :
    cached_fib c n = (v, (cache_get c n).2) := by
  rw [cached_fib.eq_def, h]

theorem cached_fib_miss_zero {c : Cache}
    (h : (cache_get c 0).1 = none) :
    cached_fib c 0 = (0, cache_set c 0 0) := by
  rw [cached_fib.eq_def, h, cached_fib_compute.eq_def]

theorem cached_fib_miss_one {c : Cache}
    (h : (cache_get c 1).1 = none) :
    cached_fib c 1 = (1, cache_set c 1 1) := by
  rw [cached_fib.eq_def, h, cached_fib_compute.eq_def]

theorem cached_fib_miss_step {c : Cache} {n : Nat}
    (h : (cache_get c (n + 2)).1 = none) :
    cached_fib c (n + 2) =
      (((cached_fib c (n + 1)).1 + (cached_fib (cached_fib c (n + 1)).2 n).1) %
          U128_MOD,
        cache_set (cached_fib (cached_fib c (n + 1)).2 n).2 (n + 2)
          (((cached_fib c (n + 1)).1 +
              (cached_fib (cached_fib c (n + 1)).2 n).1) % U128_MOD)) := by
  rw [cached_fib.eq_def, h, cached_fib_compute.eq_def]

/-- On a fib-correct cache, `cached_fib` returns the wrapped Fibonacci value
and leaves the cache fib-correct. -/
theorem cached_fib_correct (n : Nat) :
    ∀ c : Cache, CacheCorrect c →
      (cached_fib c n).1 = fibmod n ∧ CacheCorrect (cached_fib c n).2 := by
  induction n using Nat.strong_induction_on with
  | _ n ih =>
    intro c hc
    cases hfst : (cache_get c n).1 with
    | some v =>
      rw [cached_fib_hit hfst]
      exact ⟨cache_get_fst_correct hc hfst, cache_get_snd_correct n hc⟩
    | none =>
      match n with
      | 0 =>
        rw [cached_fib_miss_zero hfst]
        exact ⟨by simp [fibmod_zero], cache_set_correct hc (by simp [fibmod_zero])⟩
      | 1 =>
        rw [cached_fib_miss_one hfst]
        exact ⟨by simp [fibmod_one], cache_set_correct hc (by simp [fibmod_one])⟩
      | n + 2 =>
        rw [cached_fib_miss_step hfst]
        obtain ⟨h1, h1c⟩ := ih (n + 1) (by omega) c hc
        obtain ⟨h2, h2c⟩ := ih n (by omega) (cached_fib c (n + 1)).2 h1c
        simp only [h1, h2]
        refine ⟨by rw [fibmod_add_two], ?_⟩
        rw [← fibmod_add_two]
        exact cache_set_correct h2c rfl

/-- After any call, the entry for the argument sits at the front of the
cache and holds exactly the returned value. -/
theorem cached_fib_snd_head (c : Cache) (n : Nat) :
    ∃ rest : List (Nat × Nat),
      (cached_fib c n).2 = (n, (cached_fib c n).1) :: rest := by
  have hset : ∀ (c' : Cache) (k v : Nat),
      ∃ rest : List (Nat × Nat), cache_set c' k v = (k, v) :: rest := by
    intro c' k v
    unfold cache_set
    rw [show CACHE_SIZE = 199 + 1 from rfl, List.take_succ_cons]
    exact ⟨_, rfl⟩
  cases hfst : (cache_get c n).1 with
  | some v =>
    rw [cached_fib_hit hfst]
    show ∃ rest : List (Nat × Nat), (cache_get c n).2 = (n, v) :: rest
    rw [cache_get_hit_snd hfst]
    exact ⟨_, rfl⟩
  | none =>
    match n with
    | 0 => rw [cached_fib_miss_zero hfst]; exact hset c 0 0
    | 1 => rw [cached_fib_miss_one hfst]; exact hset c 1 1
    | n + 2 => rw [cached_fib_miss_step hfst]; exact hset _ (n + 2) _

/-- Calling `cached_fib` again right away hits the cache and returns the
same value, whatever the starting cache was. -/
theorem cached_fib_twice (c : Cache) (n : Nat) :
    (cached_fib (cached_fib c n).2 n).1 = (cached_fib c n).1 := by
  obtain ⟨rest, hhead⟩ := cached_fib_snd_head c n
  have hfind : ((cached_fib c n).2).find? (fun e => e.1 == n) =
      some (n, (cached_fib c n).1) := by
    rw [hhead]
    exact List.find?_cons_of_pos _ (by simp)
  have hget : (cache_get (cached_fib c n).2 n).1 = some (cached_fib c n).1 := by
    rw [cache_get, hfind]
  rw [cached_fib_hit hget]

/-- The pair-based iterative solver returns the wrapped Fibonacci value. -/
theorem better_dynamic_fib_eq_fibmod (n : Nat) :
    better_dynamic_fib n = fibmod n := by
  match n with
  | 0 => simp [better_dynamic_fib, fibmod_zero]
  | 1 => simp [better_dynamic_fib, fibmod_one]
  | n + 2 =>
    show (better_loop (0, 1) (n + 1)).2 = fibmod (n + 2)
    rw [show ((0 : Nat), (1 : Nat)) = (fibmod 0, fibmod (0 + 1)) by decide,
      better_loop_eq]
    simp

/-- The Fibonacci recurrence transported to `fibmod` inside the
overflow-free range. -/
theorem fibmod_recurrence {n : Nat} (h2 : 2 ≤ n) (h186 : n ≤ 186) :
    fibmod n = fibmod (n - 1) + fibmod (n - 2) := by
  obtain ⟨m, rfl⟩ : ∃ m, n = m + 2 := ⟨n - 2, by omega⟩
  rw [show m + 2 - 1 = m + 1 by omega, show m + 2 - 2 = m by omega,
    fibmod_eq_fib_of_le_186 h186, fibmod_eq_fib_of_le_186 (by omega),
    fibmod_eq_fib_of_le_186 (by omega), Nat.fib_add_two]
  omega

theorem backtrace_memo_fib_empty_eq_fibmod (n : Nat) :
    (backtrace_memo_fib emptyMemo n).1 = fibmod n :=
  (backtrace_memo_fib_correct n emptyMemo fibCorrect_empty).1

theorem cached_fib_nil_eq_fibmod (n : Nat) :
    (cached_fib [] n).1 = fibmod n :=
  (cached_fib_correct n [] cacheCorrect_nil).1

/-- C1: for every `n` in `[0, 186]`, all solver variants agree:
`backtrace_fib n`, `backtrace_memo_fib` on a fresh empty table,
`dynamic_fib n`, `better_dynamic_fib n` and `cached_fib n` (on the fresh
process cache) all return the same value. -/
theorem claim_C1_variants_agree (n : Nat) (h : n ≤ 186) :
    (backtrace_memo_fib emptyMemo n).1 = backtrace_fib n ∧
      dynamic_fib n = some (backtrace_fib n) ∧
      better_dynamic_fib n = backtrace_fib n ∧
      (cached_fib [] n).1 = backtrace_fib n := by
  rw [backtrace_fib_eq_fibmod]
  exact ⟨backtrace_memo_fib_empty_eq_fibmod n, dynamic_fib_eq_fibmod n,
    better_dynamic_fib_eq_fibmod n, cached_fib_nil_eq_fibmod n⟩

theorem claim_C1_witness :
    20 ≤ 186 ∧
      ((backtrace_memo_fib emptyMemo 20).1 = backtrace_fib 20 ∧
        dynamic_fib 20 = some (backtrace_fib 20) ∧
        better_dynamic_fib 20 = backtrace_fib 20 ∧
        (cached_fib [] 20).1 = backtrace_fib 20) :=
  ⟨by decide, claim_C1_variants_agree 20 (by decide)⟩

/-- C2: for every `n` in `[0, 186]`, the naive recursive solver
`backtrace_fib` returns the mathematical Fibonacci number `Nat.fib n`, and
that value fits in 128 bits, so no overflow occurs. -/
theorem claim_C2_backtrace_fib_math (n : Nat) (h : n ≤ 186) :
    backtrace_fib n = Nat.fib n ∧ Nat.fib n < U128_MOD :=
  ⟨by rw [backtrace_fib_eq_fibmod, fibmod_eq_fib_of_le_186 h],
    fib_lt_u128_of_le_186 h⟩

theorem claim_C2_witness :
    30 ≤ 186 ∧ (backtrace_fib 30 = Nat.fib 30 ∧ Nat.fib 30 < U128_MOD) :=
  ⟨by decide, claim_C2_backtrace_fib_math 30 (by decide)⟩

/-- C3: for every solver variant and every `n` in `[2, 186]`, the value at
`n` is the sum of the values at `n - 1` and `n - 2` (for `dynamic_fib`,
through its `Option` result). -/
theorem claim_C3_recurrence (n : Nat) (h2 : 2 ≤ n) (h186 : n ≤ 186) :
    backtrace_fib n = backtrace_fib (n - 1) + backtrace_fib (n - 2) ∧
      (backtrace_memo_fib emptyMemo n).1 =
        (backtrace_memo_fib emptyMemo (n - 1)).1 +
          (backtrace_memo_fib emptyMemo (n - 2)).1 ∧
      (∃ a b, dynamic_fib (n - 1) = some a ∧ dynamic_fib (n - 2) = some b ∧
        dynamic_fib n = some (a + b)) ∧
      better_dynamic_fib n =
        better_dynamic_fib (n - 1) + better_dynamic_fib (n - 2) ∧
      (cached_fib [] n).1 =
        (cached_fib [] (n - 1)).1 + (cached_fib [] (n - 2)).1 := by
  have hrec := fibmod_recurrence h2 h186
  refine ⟨?_, ?_, ?_, ?_, ?_⟩
  · rw [backtrace_fib_eq_fibmod, backtrace_fib_eq_fibmod,
      backtrace_fib_eq_fibmod, hrec]
  · rw [backtrace_memo_fib_empty_eq_fibmod, backtrace_memo_fib_empty_eq_fibmod,
      backtrace_memo_fib_empty_eq_fibmod, hrec]
  · exact ⟨fibmod (n - 1), fibmod (n - 2), dynamic_fib_eq_fibmod (n - 1),
      dynamic_fib_eq_fibmod (n - 2), by rw [dynamic_fib_eq_fibmod, hrec]⟩
  · rw [better_dynamic_fib_eq_fibmod, better_dynamic_fib_eq_fibmod,
      better_dynamic_fib_eq_fibmod, hrec]
  · rw [cached_fib_nil_eq_fibmod, cached_fib_nil_eq_fibmod,
      cached_fib_nil_eq_fibmod, hrec]

theorem claim_C3_witness :
    (2 ≤ 10 ∧ 10 ≤ 186) ∧
      (backtrace_fib 10 = backtrace_fib 9 + backtrace_fib 8 ∧
        (backtrace_memo_fib emptyMemo 10).1 =
          (backtrace_memo_fib emptyMemo 9).1 +
            (backtrace_memo_fib emptyMemo 8).1 ∧
        (∃ a b, dynamic_fib 9 = some a ∧ dynamic_fib 8 = some b ∧
          dynamic_fib 10 = some (a + b)) ∧
        better_dynamic_fib 10 = better_dynamic_fib 9 + better_dynamic_fib 8 ∧
        (cached_fib [] 10).1 = (cached_fib [] 9).1 + (cached_fib [] 8).1) :=
  ⟨⟨by decide, by decide⟩, claim_C3_recurrence 10 (by decide) (by decide)⟩

/-- C4: every solver variant returns 6765 for input 20, 55 for input 10,
and 832040 for input 30. -/
theorem claim_C4_concrete_values :
    (backtrace_fib 20 = 6765 ∧ (backtrace_memo_fib emptyMemo 20).1 = 6765 ∧
      dynamic_fib 20 = some 6765 ∧ better_dynamic_fib 20 = 6765 ∧
      (cached_fib [] 20).1 = 6765) ∧
    (backtrace_fib 10 = 55 ∧ (backtrace_memo_fib emptyMemo 10).1 = 55 ∧
      dynamic_fib 10 = some 55 ∧ better_dynamic_fib 10 = 55 ∧
      (cached_fib [] 10).1 = 55) ∧
    (backtrace_fib 30 = 832040 ∧
      (backtrace_memo_fib emptyMemo 30).1 = 832040 ∧
      dynamic_fib 30 = some 832040 ∧ better_dynamic_fib 30 = 832040 ∧
      (cached_fib [] 30).1 = 832040) := by
  refine ⟨⟨?_, ?_, ?_, ?_, ?_⟩, ⟨?_, ?_, ?_, ?_, ?_⟩, ⟨?_, ?_, ?_, ?_, ?_⟩⟩ <;>
    first
      | (rw [backtrace_fib_eq_fibmod]; decide)
      | (rw [backtrace_memo_fib_empty_eq_fibmod]; decide)
      | (rw [dynamic_fib_eq_fibmod]; decide)
      | (rw [better_dynamic_fib_eq_fibmod]; decide)
      | (rw [cached_fib_nil_eq_fibmod]; decide)

/-- C5: for every `n` in `[0, 186]` and every memo table whose entries are
correct (every present key `k` satisfies `k < n` and maps to `Nat.fib k`),
the memoized solver returns the same result on that table as on a freshly
created empty table. -/
theorem claim_C5_prepopulated (n : Nat) (h186 : n ≤ 186) (memo : Memo)
    (hmemo : ∀ k v, memo k = some v → k < n ∧ v = Nat.fib k) :
    (backtrace_memo_fib memo n).1 = (backtrace_memo_fib emptyMemo n).1 := by
  have hfc : FibCorrect memo := by
    intro k v hkv
    obtain ⟨hk, hv⟩ := hmemo k v hkv
    rw [hv, fibmod_eq_fib_of_le_186 (by omega)]
  rw [(backtrace_memo_fib_correct n memo hfc).1,
    backtrace_memo_fib_empty_eq_fibmod]

theorem claim_C5_witness :
    (backtrace_memo_fib memoThreeTwo 5).1 =
      (backtrace_memo_fib emptyMemo 5).1 := by
  refine claim_C5_prepopulated 5 (by decide) memoThreeTwo ?_
  intro k v h
  unfold memoThreeTwo at h
  by_cases hk : k = 3
  · subst hk
    rw [if_pos rfl] at h
    injection h with h
    subst h
    exact ⟨by omega, by decide⟩
  · rw [if_neg hk] at h
    cases h

/-- C6: the memo table invariant that a present key's value never changes:
every call of `backtrace_memo_fib` preserves the value of every key already
present, and every loop step of `dynamic_fib` preserves the value of every
key already present (the loop at step `i` only adds the new key `i`, and
present keys are below `i`). -/
theorem claim_C6_memo_invariant :
    (∀ (memo : Memo) (n k v : Nat), memo k = some v →
        (backtrace_memo_fib memo n).2 k = some v) ∧
    (∀ (m m' : Memo) (i k v : Nat), k < i → m k = some v →
        dyn_step (some m) i = some m' → m' k = some v) := by
  constructor
  · intro memo n k v hk
    exact backtrace_memo_fib_preserves n memo k v hk
  · intro m m' i k v hki hk hstep
    simp only [dyn_step] at hstep
    cases h1 : m (i - 1) with
    | none => rw [h1] at hstep; cases hstep
    | some a =>
      cases h2 : m (i - 2) with
      | none => rw [h1, h2] at hstep; cases hstep
      | some b =>
        rw [h1, h2] at hstep
        simp only [Option.some.injEq] at hstep
        rw [← hstep]
        unfold insertMemo
        rw [if_neg (by omega), hk]

theorem claim_C6_witness :
    (backtrace_memo_fib memoThreeTwo 5).2 3 = some 2 ∧
      insertMemo memoZeroOne 2 ((1 + 0) % U128_MOD) 1 = some 1 :=
  ⟨claim_C6_memo_invariant.1 memoThreeTwo 5 3 2 (by decide),
    claim_C6_memo_invariant.2 memoZeroOne
      (insertMemo memoZeroOne 2 ((1 + 0) % U128_MOD)) 2 1 1 (by decide)
      (by decide) rfl⟩

/-- C7: on the CLI boundary, a wrong argument count prints the usage message
to standard output and exits successfully without invoking any solver, and a
parsed `n` below 2 or above 186 prints the respective decline message and
exits successfully without invoking any solver. -/
theorem claim_C7_cli_guards :
    (∀ args : List String, args.length ≠ 2 →
      main_logic args = MainOutcome.usage ∧
        outcome_exit_success (main_logic args) = true ∧
        outcome_invokes_solver (main_logic args) = false) ∧
    (∀ (prog arg : String) (n : Nat), parse_u128 arg = some n →
      (n < 2 →
        main_logic [prog, arg] = MainOutcome.declineSmall n ∧
          outcome_exit_success (main_logic [prog, arg]) = true ∧
          outcome_invokes_solver (main_logic [prog, arg]) = false) ∧
      (n > 186 →
        main_logic [prog, arg] = MainOutcome.declineBig n ∧
          outcome_exit_success (main_logic [prog, arg]) = true ∧
          outcome_invokes_solver (main_logic [prog, arg]) = false)) := by
  constructor
  · intro args hlen
    match args with
    | [] => exact ⟨rfl, rfl, rfl⟩
    | [a] => exact ⟨rfl, rfl, rfl⟩
    | [a, b] => simp at hlen
    | a :: b :: c :: rest => exact ⟨rfl, rfl, rfl⟩
  · intro prog arg n hparse
    constructor
    · intro hn
      have hout : main_logic [prog, arg] = MainOutcome.declineSmall n := by
        simp only [main_logic, hparse]
        rw [if_pos hn]
      exact ⟨hout, by rw [hout]; rfl, by rw [hout]; rfl⟩
    · intro hn
      have hout : main_logic [prog, arg] = MainOutcome.declineBig n := by
        simp only [main_logic, hparse]
        rw [if_neg (by omega), if_pos hn]
      exact ⟨hout, by rw [hout]; rfl, by rw [hout]; rfl⟩

theorem claim_C7_witness :
    (main_logic [sampleProg] = MainOutcome.usage ∧
      outcome_exit_success (main_logic [sampleProg]) = true ∧
      outcome_invokes_solver (main_logic [sampleProg]) = false) ∧
    (main_logic [sampleProg, sampleArgLow] = MainOutcome.declineSmall 1 ∧
      outcome_exit_success (main_logic [sampleProg, sampleArgLow]) = true ∧
      outcome_invokes_solver (main_logic [sampleProg, sampleArgLow]) = false) ∧
    (main_logic [sampleProg, sampleArgHigh] = MainOutcome.declineBig 187 ∧
      outcome_exit_success (main_logic [sampleProg, sampleArgHigh]) = true ∧
      outcome_invokes_solver (main_logic [sampleProg, sampleArgHigh]) = false) :=
  ⟨claim_C7_cli_guards.1 [sampleProg] (by decide),
    (claim_C7_cli_guards.2 sampleProg sampleArgLow 1 (by decide)).1 (by decide),
    (claim_C7_cli_guards.2 sampleProg sampleArgHigh 187 (by decide)).2
      (by decide)⟩

/-- C8: evaluation of the CLI boundary at a non-numeric argument. The code
calls `args[1].parse::<u128>().unwrap()` (src/main.rs line 23), so a parse
failure propagates the generic `ParseIntError` through an `unwrap` panic
(failure exit code, no tailored message), rather than printing a clear
message: the program does fail fast, but not with a clear message. -/
theorem claim_C8_parse_failure_panics :
    parse_u128 sampleArgBad = none ∧
      main_logic [sampleProg, sampleArgBad] = MainOutcome.panicParse ∧
      outcome_exit_success MainOutcome.panicParse = false ∧
      outcome_invokes_solver MainOutcome.panicParse = false :=
  ⟨by decide, by decide, rfl, rfl⟩

/-- C9: for every `n` in `[0, 186]`, calling the process-lifetime cached
solver twice in the same process returns identical results both times,
whatever cache state earlier calls left behind (proved for every cache
state, reachable or not). -/
theorem claim_C9_cached_stable (c : Cache) (n : Nat) (h : n ≤ 186) :
    (cached_fib (cached_fib c n).2 n).1 = (cached_fib c n).1 :=
  cached_fib_twice c n

theorem claim_C9_witness :
    30 ≤ 186 ∧
      (cached_fib (cached_fib [] 30).2 30).1 = (cached_fib [] 30).1 :=
  ⟨by decide, claim_C9_cached_stable [] 30 (by decide)⟩

/-- C10: `dynamic_fib` is total: for every `n` the loop's table lookups at
`i - 1` and `i - 2` and the final lookup at `n` all succeed, so the embedded
result is never the `none` that models a panicking `unwrap`. -/
theorem claim_C10_dynamic_fib_total (n : Nat) :
    (dynamic_fib n).isSome = true := by
  rw [dynamic_fib_eq_fibmod]
  rfl
